import Mathlib

/-!
# Verification of `apt-transport-oci`

A shallow embedding, in Lean 4, of the core of the `apt-transport-oci`
repository: the APT acquisition-protocol message framer (`pkg/method`'s
copy of the cloudflared `apt` package), the URI grammar (`parseURI`,
`parseURIFields`), the file-index builder (`buildFileMap` over the
containerd `images.Dispatch` traversal), the per-process reference cache
(`Method.doCacheStuff`), the acquire engine (`Method.acquire`,
`Method.handleURIAcquire`) and the protocol driver loop (`Method.Run`).

Modelling conventions:
* Go strings are modelled as `List Char` (`GoStr`).
* Go maps are modelled as association lists in which the most recent
  insertion is consed at the front; lookup takes the first match, which
  gives exactly the Go map's overwrite semantics at every lookup.
* External effects (registry resolution, blob fetching, hashing, the
  local filesystem) are supplied as explicit oracle functions / outcome
  fields in an environment record; the control flow of the Go source is
  transcribed verbatim around them.
* Unbounded loops (the containerd dispatch recursion, the message-read
  loop, the driver loop) take an explicit fuel argument and return
  `none` when the fuel runs out; the Go source trusts these loops to
  terminate (or, in one case, spins forever).
* `errors.Is` / `==` comparisons against the `io` sentinel errors are
  modelled by dedicated constructors of the `GoErr` type; errors built
  from strings (`errors.New`, `fmt.Errorf`) use the `GoErr.str`
  constructor, which never compares equal to a sentinel, exactly as a
  fresh Go error value never compares equal to `io.EOF`.
-/

set_option autoImplicit false

abbrev GoStr : Type := List Char

/-- Embed a Lean string literal as a `GoStr`. -/
def gs (s : String) : GoStr := s.data

/-- `strings.SplitN s (String.singleton c) 2`, in the "found" case:
splits at the first occurrence of `c`; `none` when `c` does not occur. -/
def splitOnFirst (c : Char) : GoStr → Option (GoStr × GoStr)
  | [] => none
  | x :: xs =>
    if x = c then some ([], xs)
    else (splitOnFirst c xs).map (fun p => (x :: p.1, p.2))

/-- `strings.HasPrefix`. -/
def goHasPfx : GoStr → GoStr → Bool
  | [], _ => true
  | _ :: _, [] => false
  | p :: ps, s :: ss => decide (p = s) && goHasPfx ps ss

/-- `strings.TrimPrefix`: removes one leading occurrence, or returns the
string unchanged when the prefix is absent. -/
def goTrimPfx (p s : GoStr) : GoStr :=
  if goHasPfx p s then s.drop p.length else s

/-- `strings.HasSuffix`. -/
def goHasSfx (p s : GoStr) : Bool :=
  goHasPfx p.reverse s.reverse

/-- `strings.TrimSuffix`: removes one trailing occurrence, or returns the
string unchanged when the suffix is absent. -/
def goTrimSfx (p s : GoStr) : GoStr :=
  if goHasSfx p s then (s.reverse.drop p.length).reverse else s

/-- `strings.TrimSpace` (ASCII whitespace; the Go original trims Unicode
whitespace, which coincides on the protocol's ASCII input). -/
def goTrimSpace (s : GoStr) : GoStr :=
  (s.dropWhile Char.isWhitespace).reverse.dropWhile Char.isWhitespace |>.reverse

/-- Go map read `m[k]` for maps with string keys: first match in the
association list (the most recent insertion is at the front). -/
def lookupA {α : Type} : List (GoStr × α) → GoStr → Option α
  | [], _ => none
  | (k', v) :: t, k => if k' = k then some v else lookupA t k

/-- Go map write `m[k] = v`: cons at the front; `lookupA` takes the first
match, so this is overwrite semantics. -/
def insertA {α : Type} (m : List (GoStr × α)) (k : GoStr) (v : α) :
    List (GoStr × α) :=
  (k, v) :: m

/-- Go map read of a string-valued map, where a missing key reads as `""`. -/
def lookupD (m : List (GoStr × GoStr)) (k : GoStr) : GoStr :=
  (lookupA m k).getD []

/-!
## `parseURI` (pkg/method/method.go, lines 184–212)

The Go function returns `(repo, path string, _ error)`; the error paths
return empty `repo` and `path`.  We model the result as the full triple.
-/

/-- `parseURI` from `pkg/method/method.go`.  Returns `(repo, path, err)`;
`err = none` means success.  Error messages are the Go format strings. -/
def parseURI (uri : GoStr) : GoStr × GoStr × Option GoStr :=
  -- trimmed := strings.TrimPrefix(uri, "oci://"); if trimmed == uri { error }
  if goTrimPfx (gs "oci://") uri = uri then
    ([], [], some (gs "missing oci:// protocol in uri"))
  else
    -- split := strings.SplitN(trimmed, ":", 2); if len(split) < 2 { error }
    match splitOnFirst ':' (goTrimPfx (gs "oci://") uri) with
    | none => ([], [], some (gs "uri is missing repo tag"))
    | some (host, rest) =>
      -- repo = "oci://" + split[0] + ":"
      -- tagAndFile := strings.SplitN(split[1], "/", 2)
      -- repo += tagAndFile[0] + "/"
      match splitOnFirst '/' rest with
      | none => (gs "oci://" ++ host ++ ':' :: rest ++ ['/'], [], none)
      | some (tag, path) =>
        (gs "oci://" ++ host ++ ':' :: tag ++ ['/'], path, none)

/-!
### Lemmas about the splitting primitives
-/

theorem goHasPfx_append (p r : GoStr) : goHasPfx p (p ++ r) = true := by
  induction p with
  | nil => rfl
  | cons a t ih => simp [goHasPfx, ih]

theorem goHasPfx_exists {p s : GoStr} (h : goHasPfx p s = true) :
    ∃ r, s = p ++ r := by
  induction p generalizing s with
  | nil => exact ⟨s, rfl⟩
  | cons a t ih =>
    cases s with
    | nil => simp [goHasPfx] at h
    | cons b u =>
      simp only [goHasPfx, Bool.and_eq_true, decide_eq_true_eq] at h
      obtain ⟨rfl, h2⟩ := h
      obtain ⟨r, rfl⟩ := ih h2
      exact ⟨r, rfl⟩

theorem goTrimPfx_append (p r : GoStr) : goTrimPfx p (p ++ r) = r := by
  simp [goTrimPfx, goHasPfx_append, List.drop_left]

theorem goTrimPfx_eq_self_iff (p s : GoStr) (hp : p ≠ []) :
    goTrimPfx p s = s ↔ goHasPfx p s = false := by
  constructor
  · intro h
    by_contra hb
    have hb' : goHasPfx p s = true := by
      cases hpf : goHasPfx p s with
      | false => exact absurd hpf hb
      | true => rfl
    obtain ⟨r, rfl⟩ := goHasPfx_exists hb'
    rw [goTrimPfx_append] at h
    have hlen : r.length = (p ++ r).length := congrArg List.length h
    rw [List.length_append] at hlen
    have hp0 : p.length = 0 := by omega
    exact hp (List.length_eq_zero.mp hp0)
  · intro h
    simp [goTrimPfx, h]

theorem goTrimPfx_append_ne (p r : GoStr) (hp : p ≠ []) :
    goTrimPfx p (p ++ r) ≠ p ++ r := by
  rw [goTrimPfx_append]
  intro h
  have hlen : r.length = (p ++ r).length := congrArg List.length h
  rw [List.length_append] at hlen
  have hp0 : p.length = 0 := by omega
  exact hp (List.length_eq_zero.mp hp0)

theorem splitOnFirst_eq_none_iff (c : Char) (s : GoStr) :
    splitOnFirst c s = none ↔ c ∉ s := by
  induction s with
  | nil => simp [splitOnFirst]
  | cons a t ih =>
    by_cases hac : a = c
    · subst hac
      simp [splitOnFirst]
    · simp only [splitOnFirst, if_neg hac, List.mem_cons]
      rw [Option.map_eq_none', ih]
      constructor
      · rintro h (h1 | h2)
        · exact hac h1.symm
        · exact h h2
      · intro h h2
        exact h (Or.inr h2)

theorem splitOnFirst_append (c : Char) (a b : GoStr) (h : c ∉ a) :
    splitOnFirst c (a ++ c :: b) = some (a, b) := by
  induction a with
  | nil => simp [splitOnFirst]
  | cons x t ih =>
    have hx : x ≠ c := fun hh => h (by simp [hh])
    have ht : c ∉ t := fun hh => h (by simp [hh])
    simp [splitOnFirst, hx, ih ht]

theorem splitOnFirst_eq_some {c : Char} {s a b : GoStr}
    (h : splitOnFirst c s = some (a, b)) : c ∉ a ∧ s = a ++ c :: b := by
  induction s generalizing a b with
  | nil => simp [splitOnFirst] at h
  | cons x t ih =>
    by_cases hx : x = c
    · subst hx
      simp [splitOnFirst] at h
      obtain ⟨rfl, rfl⟩ := h
      simp
    · simp only [splitOnFirst, if_neg hx] at h
      cases hs : splitOnFirst c t with
      | none => rw [hs] at h; simp at h
      | some p =>
        rw [hs] at h
        simp only [Option.map_some', Option.some_inj] at h
        obtain ⟨rfl, rfl⟩ : x :: p.1 = a ∧ p.2 = b := by
          constructor
          · exact congrArg Prod.fst h
          · exact congrArg Prod.snd h
        obtain ⟨h1, h2⟩ := ih (a := p.1) (b := p.2) (by rw [hs])
        constructor
        · intro hm
          rcases List.mem_cons.mp hm with hm | hm
          · exact hx hm.symm
          · exact h1 hm
        · simp [h2]

/-- `"oci://"` is never a prefix of a string equal to its own trim, so the
Go test `trimmed == uri` is exactly prefix absence. -/
theorem goTrimPfx_oci_eq_self_iff (s : GoStr) :
    goTrimPfx (gs "oci://") s = s ↔ goHasPfx (gs "oci://") s = false :=
  goTrimPfx_eq_self_iff _ s (by decide)

/-!
## Claims C3, C4, C5
-/

theorem parseURI_splits (host tag p : GoStr)
    (hhost : ':' ∉ host) (htag : '/' ∉ tag) :
    parseURI (gs "oci://" ++ host ++ ':' :: tag ++ '/' :: p)
      = (gs "oci://" ++ host ++ ':' :: tag ++ ['/'], p, none) := by
  have hassoc : gs "oci://" ++ host ++ ':' :: tag ++ '/' :: p
      = gs "oci://" ++ (host ++ ':' :: (tag ++ '/' :: p)) := by simp
  rw [hassoc]
  unfold parseURI
  rw [goTrimPfx_append]
  rw [if_neg (fun h => goTrimPfx_append_ne (gs "oci://") _ (by decide)
    (by rw [goTrimPfx_append]; exact h))]
  rw [splitOnFirst_append ':' host (tag ++ '/' :: p) hhost]
  simp [splitOnFirst_append '/' tag p htag]

theorem parseURI_noTrailingPath (host tag : GoStr)
    (hhost : ':' ∉ host) (htag : '/' ∉ tag) :
    parseURI (gs "oci://" ++ host ++ ':' :: tag)
      = (gs "oci://" ++ host ++ ':' :: tag ++ ['/'], [], none) := by
  have hassoc : gs "oci://" ++ host ++ ':' :: tag
      = gs "oci://" ++ (host ++ ':' :: tag) := by simp
  rw [hassoc]
  unfold parseURI
  rw [goTrimPfx_append]
  rw [if_neg (fun h => goTrimPfx_append_ne (gs "oci://") _ (by decide)
    (by rw [goTrimPfx_append]; exact h))]
  rw [splitOnFirst_append ':' host tag hhost]
  simp [(splitOnFirst_eq_none_iff '/' tag).mpr htag]

/-- **C3.** For every input of the form `oci://host:tag/path` — where the
host portion contains no colon and the tag portion contains no slash —
`parseURI` succeeds and returns `repo = "oci://host:tag/"` and `path`
equal to the suffix after the first slash following the tag; with host
and tag but no trailing slash or path it returns the same repo and an
empty path. -/
theorem parseURI_wellformed (host tag p : GoStr)
    (hhost : ':' ∉ host) (htag : '/' ∉ tag) :
    parseURI (gs "oci://" ++ host ++ ':' :: tag ++ '/' :: p)
      = (gs "oci://" ++ host ++ ':' :: tag ++ ['/'], p, none)
    ∧ parseURI (gs "oci://" ++ host ++ ':' :: tag)
      = (gs "oci://" ++ host ++ ':' :: tag ++ ['/'], [], none) :=
  ⟨parseURI_splits host tag p hhost htag,
   parseURI_noTrailingPath host tag hhost htag⟩

/-- Witness for C3 at a concrete input. -/
theorem parseURI_wellformed_witness :
    parseURI (gs "oci://ghcr.io/akihirosuda/repo:latest/dists/x/Packages")
      = (gs "oci://ghcr.io/akihirosuda/repo:latest/", gs "dists/x/Packages", none) := by
  have h := parseURI_wellformed (gs "ghcr.io/akihirosuda/repo") (gs "latest")
    (gs "dists/x/Packages") (by decide) (by decide)
  have h1 := h.1
  simpa [gs] using h1

/-- Every successful `parseURI` produces a repo of the canonical shape:
`"oci://" ++ h ++ ":" ++ t ++ "/"` with `':' ∉ h` and `'/' ∉ t`. -/
theorem parseURI_ok_shape {uri repo p : GoStr}
    (h : parseURI uri = (repo, p, none)) :
    ∃ host tag, repo = gs "oci://" ++ host ++ ':' :: tag ++ ['/']
      ∧ ':' ∉ host ∧ '/' ∉ tag := by
  unfold parseURI at h
  split at h
  · simp at h
  · split at h
    · simp at h
    · rename_i host rest hs
      split at h
      · rename_i hs2
        simp only [Prod.mk.injEq] at h
        obtain ⟨hc, -⟩ := splitOnFirst_eq_some hs
        exact ⟨host, rest, h.1.symm, hc,
          (splitOnFirst_eq_none_iff '/' rest).mp hs2⟩
      · rename_i tag path hs2
        simp only [Prod.mk.injEq] at h
        obtain ⟨hc, -⟩ := splitOnFirst_eq_some hs
        obtain ⟨hc2, -⟩ := splitOnFirst_eq_some hs2
        exact ⟨host, tag, h.1.symm, hc, hc2⟩

/-- **C4.** Round-trip: re-parsing a canonical reference emitted by a
successful `parseURI`, concatenated with any relative path, reproduces
exactly that canonical string as repo and exactly the relative path. -/
theorem parseURI_roundtrip {uri repo p : GoStr} (rel : GoStr)
    (h : parseURI uri = (repo, p, none)) :
    parseURI (repo ++ rel) = (repo, rel, none) := by
  obtain ⟨host, tag, rfl, hhost, htag⟩ := parseURI_ok_shape h
  have := parseURI_splits host tag rel hhost htag
  simpa using this

/-- Witness for C4 at a concrete input. -/
theorem parseURI_roundtrip_witness :
    parseURI (gs "oci://reg.example:latest/" ++ gs "a/b/c")
      = (gs "oci://reg.example:latest/", gs "a/b/c", none) := by
  exact @parseURI_roundtrip (gs "oci://reg.example:latest/x")
    (gs "oci://reg.example:latest/") (gs "x") (gs "a/b/c") (by decide)

/-- **C5.** `parseURI` fails exactly on inputs that lack the `oci://`
scheme or whose remainder after the scheme contains no colon, and every
failure returns empty repo and empty path (so in particular a host with
a path but no tag fails). -/
theorem parseURI_failure (uri : GoStr) :
    ((parseURI uri).2.2.isSome
      ↔ (goHasPfx (gs "oci://") uri = false
          ∨ ':' ∉ goTrimPfx (gs "oci://") uri))
    ∧ ((parseURI uri).2.2.isSome → (parseURI uri).1 = [] ∧ (parseURI uri).2.1 = []) := by
  constructor
  · unfold parseURI
    split
    · rename_i htr
      simp only [Option.isSome_some, true_iff]
      exact Or.inl ((goTrimPfx_oci_eq_self_iff uri).mp htr)
    · rename_i htr
      have hpf : goHasPfx (gs "oci://") uri = true := by
        cases hc : goHasPfx (gs "oci://") uri with
        | false => exact absurd ((goTrimPfx_oci_eq_self_iff uri).mpr hc) htr
        | true => rfl
      split
      · rename_i hs
        simp only [Option.isSome_some, true_iff]
        exact Or.inr ((splitOnFirst_eq_none_iff ':' _).mp hs)
      · rename_i host rest hs
        have hcin : ':' ∈ goTrimPfx (gs "oci://") uri := by
          obtain ⟨-, heq⟩ := splitOnFirst_eq_some hs
          rw [heq]; simp
        split
        · refine iff_of_false (by simp) ?_
          rintro (h1 | h2)
          · rw [hpf] at h1
            exact absurd h1 (by decide)
          · exact h2 hcin
        · refine iff_of_false (by simp) ?_
          rintro (h1 | h2)
          · rw [hpf] at h1
            exact absurd h1 (by decide)
          · exact h2 hcin
  · unfold parseURI
    split
    · simp
    · split
      · simp
      · split
        · simp
        · simp

/-- Witness for C5: a host with a path but no tag fails with empty
results, while the claim's biconditional holds at that input. -/
theorem parseURI_failure_witness :
    ((parseURI (gs "oci://reg.example/some/path")).2.2.isSome
      ↔ (goHasPfx (gs "oci://") (gs "oci://reg.example/some/path") = false
          ∨ ':' ∉ goTrimPfx (gs "oci://") (gs "oci://reg.example/some/path")))
    ∧ ((parseURI (gs "oci://reg.example/some/path")).2.2.isSome
        → (parseURI (gs "oci://reg.example/some/path")).1 = []
          ∧ (parseURI (gs "oci://reg.example/some/path")).2.1 = []) :=
  parseURI_failure (gs "oci://reg.example/some/path")

/-!
## Protocol messages and `parseURIFields` (pkg/method/method.go, lines 214–239)
-/

/-- Field-name constants from `pkg/method/method.go`. -/
def fieldURI : GoStr := gs "URI"

def fieldMessage : GoStr := gs "Message"

def fieldTargetRepoURI : GoStr := gs "Target-Repo-URI"

def fieldFilename : GoStr := gs "Filename"

def fieldSize : GoStr := gs "Size"

def fieldSHA256Hash : GoStr := gs "SHA256-Hash"

/-- `apt.Message`: status code, description, and a field map (modelled as
an association list, most recent write first). -/
structure AptMessage where
  statusCode : Nat
  description : GoStr
  fields : List (GoStr × GoStr)
  deriving DecidableEq

/-- `msg.Fields[k]` (missing key reads as the empty string). -/
def AptMessage.field (msg : AptMessage) (k : GoStr) : GoStr :=
  lookupD msg.fields k

/-- `parseURIFields` from `pkg/method/method.go`.  The external
`refdocker.ParseDockerRef` is supplied as the oracle `pdr` mapping a
reference string to its normalized `Named` form (the code only ever uses
the parsed reference through `.String()`, so the `Named` value is
modelled by that string).  Returns `(ociRef, title)` on success. -/
def parseURIFields (pdr : GoStr → Except GoStr GoStr) (msg : AptMessage) :
    Except GoStr (GoStr × GoStr) :=
  match
    (if msg.field fieldTargetRepoURI = [] then
      (if msg.field fieldURI = [] then
        .error (gs "missing field \"Target-Repo-URI\"")
      else
        match parseURI (msg.field fieldURI) with
        | (_, _, some e) => .error e
        | (repo, _, none) => .ok repo)
    else .ok (msg.field fieldTargetRepoURI) : Except GoStr GoStr)
  with
  | .error e => .error e
  | .ok repoURI =>
    if goHasPfx (gs "oci://") repoURI = false then
      .error (gs "field Target-Repo-URI lacks \"oci://\" prefix: \""
        ++ repoURI ++ gs "\"")
    else
      match pdr (goTrimSfx (gs "/") (goTrimPfx (gs "oci://") repoURI)) with
      | .error e =>
        .error (gs "failed to parse \""
          ++ goTrimSfx (gs "/") (goTrimPfx (gs "oci://") repoURI)
          ++ gs "\" (Target-Repo-URI=\"" ++ repoURI
          ++ gs "\") as Docker reference: " ++ e)
      | .ok named =>
        .ok (named, goTrimPfx (gs "./") (goTrimPfx repoURI (msg.field fieldURI)))

theorem goTrimPfx_of_not_pfx {p s : GoStr} (h : goHasPfx p s = false) :
    goTrimPfx p s = s := by
  simp [goTrimPfx, h]

/-- **C10.** When the `Target-Repo-URI` field is present, begins with
`oci://` and parses as a valid reference, `parseURIFields` succeeds even
when that repository URI is not a prefix of the `URI` field's value; the
returned title is then the entire `URI` value unchanged except for the
removal of one leading `./` — no error is reported and the title is not
made relative to the repository. -/
theorem parseURIFields_nonPrefixRepo
    (pdr : GoStr → Except GoStr GoStr) (msg : AptMessage) (named : GoStr)
    (h2 : msg.field fieldTargetRepoURI ≠ [])
    (h3 : goHasPfx (gs "oci://") (msg.field fieldTargetRepoURI) = true)
    (h4 : pdr (goTrimSfx (gs "/")
      (goTrimPfx (gs "oci://") (msg.field fieldTargetRepoURI))) = .ok named)
    (h5 : goHasPfx (msg.field fieldTargetRepoURI) (msg.field fieldURI) = false) :
    parseURIFields pdr msg
      = .ok (named, goTrimPfx (gs "./") (msg.field fieldURI)) := by
  unfold parseURIFields
  rw [if_neg h2]
  simp only [h3, Bool.true_eq_false, if_false, ite_false, h4,
    goTrimPfx_of_not_pfx h5]

/-- Witness for C10 at a concrete message whose repository URI is not a
prefix of the request URI. -/
theorem parseURIFields_nonPrefixRepo_witness :
    parseURIFields (fun r => .ok r)
      { statusCode := 600, description := gs "URI Acquire",
        fields := [(fieldTargetRepoURI, gs "oci://reg.example/repo:tag/"),
                   (fieldURI, gs "oci://other.example/x:y/Packages")] }
      = .ok (gs "reg.example/repo:tag",
             gs "oci://other.example/x:y/Packages") := by
  have h := parseURIFields_nonPrefixRepo (fun r => .ok r)
    { statusCode := 600, description := gs "URI Acquire",
      fields := [(fieldTargetRepoURI, gs "oci://reg.example/repo:tag/"),
                 (fieldURI, gs "oci://other.example/x:y/Packages")] }
    (gs "reg.example/repo:tag")
    (by decide) (by decide) (by rfl) (by decide)
  exact h

/-!
## Descriptors and the file-index builder
(`buildFileMap`, pkg/method/method.go lines 135–182)

The containerd `images.Dispatch` traversal is transcribed sequentially:
each descriptor is handled, then its children are fully dispatched, then
its right siblings.  The registry is an oracle `fetchDoc` combining
`fetcher.Fetch` + `ioutil.ReadAll` + `json.Unmarshal`: it yields the
fetched document body, exposing both the `layers` field (read when the
body is decoded as a manifest) and the `manifests` field (read when it
is decoded as an index).  The fetcher interface value is modelled as an
opaque handle (`Nat`) interpreted by the oracle.
-/

def mediaTypeDockerManifest : GoStr :=
  gs "application/vnd.docker.distribution.manifest.v2+json"

def mediaTypeOCIManifest : GoStr :=
  gs "application/vnd.oci.image.manifest.v1+json"

def mediaTypeDockerManifestList : GoStr :=
  gs "application/vnd.docker.distribution.manifest.list.v2+json"

def mediaTypeOCIIndex : GoStr :=
  gs "application/vnd.oci.image.index.v1+json"

def mediaTypeOctetStream : GoStr := gs "application/octet-stream"

def mediaTypeXBinary : GoStr := gs "application/x-binary"

/-- `ocispec.AnnotationTitle`. -/
def annotationTitleKey : GoStr := gs "org.opencontainers.image.title"

/-- An OCI digest, already split into algorithm and encoded value (the
Go `digest.Digest` is the string `algorithm ++ ":" ++ encoded`). -/
structure GoDigest where
  algorithm : GoStr
  encoded : GoStr
  deriving DecidableEq

/-- `digest.Digest.String()`. -/
def GoDigest.render (d : GoDigest) : GoStr :=
  d.algorithm ++ ':' :: d.encoded

/-- `ocispec.Descriptor` (the fields the code reads). -/
structure Descriptor where
  mediaType : GoStr
  digest : GoDigest
  size : Int
  annotations : List (GoStr × GoStr)
  deriving DecidableEq

/-- `l.Annotations[ocispec.AnnotationTitle]` (missing key reads `""`). -/
def Descriptor.title (d : Descriptor) : GoStr :=
  lookupD d.annotations annotationTitleKey

/-- Segment splitting for `path.Clean`: split on `'/'`, keeping empty
segments. -/
def splitAllChar (c : Char) : GoStr → List GoStr
  | [] => [[]]
  | x :: xs =>
    if x = c then [] :: splitAllChar c xs
    else
      match splitAllChar c xs with
      | [] => [[x]]
      | s :: ss => (x :: s) :: ss

/-- Stack evaluation of path segments for `path.Clean`; the stack is
kept reversed (deepest segment first). -/
def cleanSegs (rooted : Bool) : List GoStr → List GoStr → List GoStr
  | stk, [] => stk
  | stk, e :: es =>
    if e = [] ∨ e = ['.'] then cleanSegs rooted stk es
    else if e = ['.', '.'] then
      match stk with
      | s :: rest =>
        if s = ['.', '.'] then cleanSegs rooted (e :: s :: rest) es
        else cleanSegs rooted rest es
      | [] => if rooted then cleanSegs rooted [] es else cleanSegs rooted [e] es
    else cleanSegs rooted (e :: stk) es

/-- Go `path.Clean`: lexical cleaning — drop empty and `.` segments,
resolve `..` against the stack (retaining leading `..` in relative
paths, dropping it at the root), collapse separators, map the empty
result to `"."`. -/
def cleanPath (p : GoStr) : GoStr :=
  if p = [] then ['.']
  else
    let rooted := p.head? = some '/'
    let body := List.intercalate ['/']
      (cleanSegs rooted [] (splitAllChar '/' p)).reverse
    let out := if rooted then '/' :: body else body
    if out = [] then ['.'] else out

/-- A document body as decoded by `json.Unmarshal`: decoding as
`ocispec.Manifest` reads `layers`, decoding as `ocispec.Index` reads
`manifests`. -/
structure OCIDoc where
  layers : List Descriptor
  manifests : List Descriptor
  deriving DecidableEq

/-- The file map under construction (`files` in `buildFileMap`). -/
abbrev FileMap : Type := List (GoStr × Descriptor)

/-- One iteration of the loop `for _, l := range manifest.Layers`:
insert the layer under its cleaned title when the title annotation is
non-empty, else skip. -/
def addLayer (files : FileMap) (l : Descriptor) : FileMap :=
  if l.title ≠ [] then insertA files (cleanPath l.title) l else files

/-- The `images.HandlerFunc` of `buildFileMap`: manifests fold their
layers into `files` and return no children; indices return their
manifests as children; anything else is ignored. -/
def handleDesc (fetchDoc : Nat → Descriptor → Except GoStr OCIDoc)
    (fetcher : Nat) (files : FileMap) (desc : Descriptor) :
    Except GoStr (FileMap × List Descriptor) :=
  if desc.mediaType = mediaTypeDockerManifest
      ∨ desc.mediaType = mediaTypeOCIManifest then
    match fetchDoc fetcher desc with
    | .error e => .error e
    | .ok doc => .ok (doc.layers.foldl addLayer files, [])
  else if desc.mediaType = mediaTypeDockerManifestList
      ∨ desc.mediaType = mediaTypeOCIIndex then
    match fetchDoc fetcher desc with
    | .error e => .error e
    | .ok doc => .ok (files, doc.manifests)
  else .ok (files, [])

/-- `images.Dispatch` (sequentialized): handle each descriptor, fully
dispatch its children, then its siblings; fuelled, `none` = fuel ran
out (the Go code trusts the graph to be finite). -/
def dispatchDescs (fetchDoc : Nat → Descriptor → Except GoStr OCIDoc)
    (fetcher : Nat) :
    Nat → List Descriptor → FileMap → Option (Except GoStr FileMap)
  | 0, _, _ => none
  | _ + 1, [], files => some (.ok files)
  | fuel + 1, d :: ds, files =>
    match handleDesc fetchDoc fetcher files d with
    | .error e => some (.error e)
    | .ok (files1, children) =>
      match dispatchDescs fetchDoc fetcher fuel children files1 with
      | none => none
      | some (.error e) => some (.error e)
      | some (.ok files2) => dispatchDescs fetchDoc fetcher fuel ds files2

/-- `buildFileMap` from `pkg/method/method.go`. -/
def buildFileMap (fetchDoc : Nat → Descriptor → Except GoStr OCIDoc)
    (fetcher : Nat) (fuel : Nat) (rootDesc : Descriptor) :
    Option (Except GoStr FileMap) :=
  dispatchDescs fetchDoc fetcher fuel [rootDesc] []

/-- The handler's layer contribution, without the map: manifests yield
their layer list, indices their children. -/
def layersHandle (fetchDoc : Nat → Descriptor → Except GoStr OCIDoc)
    (fetcher : Nat) (desc : Descriptor) :
    Except GoStr (List Descriptor × List Descriptor) :=
  if desc.mediaType = mediaTypeDockerManifest
      ∨ desc.mediaType = mediaTypeOCIManifest then
    match fetchDoc fetcher desc with
    | .error e => .error e
    | .ok doc => .ok (doc.layers, [])
  else if desc.mediaType = mediaTypeDockerManifestList
      ∨ desc.mediaType = mediaTypeOCIIndex then
    match fetchDoc fetcher desc with
    | .error e => .error e
    | .ok doc => .ok ([], doc.manifests)
  else .ok ([], [])

/-- The same traversal as `dispatchDescs`, collecting the manifest
layers in processing order instead of folding them into a map. -/
def collectLayers (fetchDoc : Nat → Descriptor → Except GoStr OCIDoc)
    (fetcher : Nat) :
    Nat → List Descriptor → Option (Except GoStr (List Descriptor))
  | 0, _ => none
  | _ + 1, [] => some (.ok [])
  | fuel + 1, d :: ds =>
    match layersHandle fetchDoc fetcher d with
    | .error e => some (.error e)
    | .ok (collected, children) =>
      match collectLayers fetchDoc fetcher fuel children with
      | none => none
      | some (.error e) => some (.error e)
      | some (.ok ls1) =>
        match collectLayers fetchDoc fetcher fuel ds with
        | none => none
        | some (.error e) => some (.error e)
        | some (.ok ls2) => some (.ok (collected ++ ls1 ++ ls2))

/-- The layer descriptors of all manifests reachable from the root
through index/manifest-list documents, in processing order. -/
def reachableLayers (fetchDoc : Nat → Descriptor → Except GoStr OCIDoc)
    (fetcher : Nat) (fuel : Nat) (rootDesc : Descriptor) :
    Option (Except GoStr (List Descriptor)) :=
  collectLayers fetchDoc fetcher fuel [rootDesc]

/-- The last layer in `ls` carrying a non-empty title whose cleaned
title equals `k` (processing order: later elements win). -/
def lastTitled (k : GoStr) : List Descriptor → Option Descriptor
  | [] => none
  | l :: ls =>
    match lastTitled k ls with
    | some d => some d
    | none => if l.title ≠ [] ∧ cleanPath l.title = k then some l else none

theorem handleDesc_ok {fd : Nat → Descriptor → Except GoStr OCIDoc} {f : Nat}
    {files files1 : FileMap} {d : Descriptor} {ch : List Descriptor}
    (h : handleDesc fd f files d = .ok (files1, ch)) :
    ∃ col, layersHandle fd f d = .ok (col, ch)
      ∧ files1 = col.foldl addLayer files := by
  unfold handleDesc at h
  unfold layersHandle
  split at h
  · rename_i hm
    rw [if_pos hm]
    cases hf : fd f d with
    | error e => rw [hf] at h; simp at h
    | ok doc =>
      rw [hf] at h
      simp only [Except.ok.injEq, Prod.mk.injEq] at h
      obtain ⟨h1, h2⟩ := h
      subst h2
      subst h1
      exact ⟨doc.layers, rfl, rfl⟩
  · rename_i hm
    rw [if_neg hm]
    split at h
    · rename_i hi
      rw [if_pos hi]
      cases hf : fd f d with
      | error e => rw [hf] at h; simp at h
      | ok doc =>
        rw [hf] at h
        simp only [Except.ok.injEq, Prod.mk.injEq] at h
        obtain ⟨h1, h2⟩ := h
        subst h2
        subst h1
        exact ⟨[], rfl, rfl⟩
    · rename_i hi
      rw [if_neg hi]
      simp only [Except.ok.injEq, Prod.mk.injEq] at h
      obtain ⟨h1, h2⟩ := h
      subst h2
      subst h1
      exact ⟨[], rfl, rfl⟩

theorem dispatch_collect {fd : Nat → Descriptor → Except GoStr OCIDoc} {f : Nat} :
    ∀ (fuel : Nat) (ds : List Descriptor) (files F : FileMap),
      dispatchDescs fd f fuel ds files = some (.ok F) →
      ∃ ls, collectLayers fd f fuel ds = some (.ok ls)
        ∧ F = ls.foldl addLayer files := by
  intro fuel
  induction fuel with
  | zero => intro ds files F h; simp [dispatchDescs] at h
  | succ n ih =>
    intro ds files F h
    cases ds with
    | nil =>
      simp only [dispatchDescs, Option.some_inj, Except.ok.injEq] at h
      subst h
      exact ⟨[], by simp [collectLayers], rfl⟩
    | cons d ds =>
      cases hh : handleDesc fd f files d with
      | error e => simp [dispatchDescs, hh] at h
      | ok pr =>
        obtain ⟨files1, ch⟩ := pr
        simp only [dispatchDescs, hh] at h
        cases hc : dispatchDescs fd f n ch files1 with
        | none => rw [hc] at h; simp at h
        | some r =>
          cases r with
          | error e => rw [hc] at h; simp at h
          | ok files2 =>
            rw [hc] at h
            simp only [] at h
            obtain ⟨ls1, hls1, hf1⟩ := ih ch files1 files2 hc
            obtain ⟨ls2, hls2, hf2⟩ := ih ds files2 F h
            obtain ⟨col, hcol, hf0⟩ := handleDesc_ok hh
            refine ⟨col ++ ls1 ++ ls2, ?_, ?_⟩
            · simp only [collectLayers, hcol, hls1, hls2]
            · rw [hf2, hf1, hf0]
              simp [List.foldl_append]

theorem lookupA_foldl_addLayer :
    ∀ (ls : List Descriptor) (files : FileMap) (k : GoStr),
      lookupA (ls.foldl addLayer files) k =
        (match lastTitled k ls with
          | some d => some d
          | none => lookupA files k) := by
  intro ls
  induction ls with
  | nil => intro files k; simp [lastTitled]
  | cons l ls ih =>
    intro files k
    simp only [List.foldl_cons, ih]
    rw [lastTitled]
    cases lastTitled k ls with
    | some d => simp
    | none =>
      simp only []
      by_cases ht : l.title ≠ [] ∧ cleanPath l.title = k
      · rw [if_pos ht]
        unfold addLayer
        rw [if_pos ht.1]
        simp [insertA, lookupA, ht.2]
      · rw [if_neg ht]
        unfold addLayer
        by_cases h1 : l.title ≠ []
        · rw [if_pos h1]
          have h2 : cleanPath l.title ≠ k := fun hh => ht ⟨h1, hh⟩
          simp [insertA, lookupA, h2]
        · rw [if_neg h1]

/-- **C6.** For every root descriptor, a successful `buildFileMap` run
produces a mapping whose entries are exactly the reachable layer
descriptors (through any chain of index / manifest-list and manifest
documents) with a non-empty title annotation, keyed by the path-cleaned
title; untitled layers and descriptors of other media types contribute
nothing, and for a cleaned title declared by several manifests the
single entry holds the layer of whichever manifest was processed
last. -/
theorem buildFileMap_entries
    {fd : Nat → Descriptor → Except GoStr OCIDoc} {f fuel : Nat}
    {root : Descriptor} {F : FileMap}
    (h : buildFileMap fd f fuel root = some (.ok F)) :
    ∃ ls, reachableLayers fd f fuel root = some (.ok ls)
      ∧ ∀ k, lookupA F k = lastTitled k ls := by
  obtain ⟨ls, hls, rfl⟩ := dispatch_collect fuel [root] [] F h
  refine ⟨ls, hls, fun k => ?_⟩
  rw [lookupA_foldl_addLayer]
  cases lastTitled k ls <;> simp [lookupA]

/-- Two manifests both declaring a layer titled `Packages`, referenced
from one index (the spec's end-to-end scenario B). -/
def exLayer1 : Descriptor :=
  ⟨mediaTypeOctetStream, ⟨gs "sha256", gs "l1"⟩, 3,
    [(annotationTitleKey, gs "Packages")]⟩

def exLayer2 : Descriptor :=
  ⟨mediaTypeOctetStream, ⟨gs "sha256", gs "l2"⟩, 4,
    [(annotationTitleKey, gs "Packages")]⟩

def exManifest1 : Descriptor :=
  ⟨mediaTypeOCIManifest, ⟨gs "sha256", gs "m1"⟩, 0, []⟩

def exManifest2 : Descriptor :=
  ⟨mediaTypeOCIManifest, ⟨gs "sha256", gs "m2"⟩, 0, []⟩

def exIndex : Descriptor :=
  ⟨mediaTypeOCIIndex, ⟨gs "sha256", gs "idx"⟩, 0, []⟩

def exFetchDoc : Nat → Descriptor → Except GoStr OCIDoc := fun _ d =>
  if d.digest.encoded = gs "idx" then .ok ⟨[], [exManifest1, exManifest2]⟩
  else if d.digest.encoded = gs "m1" then .ok ⟨[exLayer1], []⟩
  else if d.digest.encoded = gs "m2" then .ok ⟨[exLayer2], []⟩
  else .error (gs "not found")

/-- Witness for C6: in scenario B the built map holds a single
`Packages` entry pointing at the layer of the manifest processed
last. -/
theorem buildFileMap_entries_witness :
    buildFileMap exFetchDoc 0 4 exIndex
        = some (.ok [(gs "Packages", exLayer2), (gs "Packages", exLayer1)])
      ∧ ∃ ls, reachableLayers exFetchDoc 0 4 exIndex = some (.ok ls)
        ∧ ∀ k, lookupA [(gs "Packages", exLayer2), (gs "Packages", exLayer1)] k
            = lastTitled k ls := by
  constructor
  · rfl
  · exact buildFileMap_entries (by rfl)

/-!
## Output messages (`apt.MessageWriter`)

The writer serializes each message onto the output stream; we record
the writer calls the `Method` makes, one constructor per writer method.
-/

inductive OutMsg where
  | capabilities (version : GoStr)
  | logMsg (m : GoStr)
  | statusMsg (uri m : GoStr)
  | warningMsg (m : GoStr)
  | uriStart (uri resumePoint : GoStr) (size : Int) (usedMirror : Bool)
  | uriDone (uri filename resumePoint altIMSHit : GoStr)
      (imsHit usedMirror : Bool) (extra : List (GoStr × GoStr))
  | uriFailure (uri message failReason : GoStr)
      (transientError usedMirror : Bool)
  | generalFailure (m : GoStr)
  deriving DecidableEq

/-- Is this a `200 URI Start` message? -/
def OutMsg.isUriStart : OutMsg → Bool
  | .uriStart _ _ _ _ => true
  | _ => false

/-- Is this a `401 General Failure` message? -/
def OutMsg.isGeneralFailure : OutMsg → Bool
  | .generalFailure _ => true
  | _ => false

/-!
## The reference cache (`Method.doCacheStuff`, lines 257–286)

External collaborators are oracle fields of `MethodEnv`:
`ociResolverR` is the outcome of `Method.ociResolver` (the
`dockerconfigresolver` construction, error text already wrapped),
`ociFetcherR` the outcome of `Method.ociFetcher` (resolve + fetcher
binding, yielding the fetcher handle and the root descriptor),
`fetchDoc` the manifest/index fetch + JSON decode, `fetchBlob` the blob
fetch, `createFile`/`copyErr`/`closeWErr`/`closeRErr` the local-file
outcomes, and `hashEncoded` the hex encoding produced by the SHA-256
digester over the copied bytes.  `fuel` bounds the dispatch recursion.
The `%+v` renderings inside `Statusf` texts are abbreviated to the
descriptor digest; no claim depends on `102 Status` payloads.
-/

structure CacheEntry where
  fetcher : Nat
  fileMap : FileMap
  deriving DecidableEq

abbrev Cache : Type := List (GoStr × CacheEntry)

structure MethodEnv where
  pdr : GoStr → Except GoStr GoStr
  ociResolverR : GoStr → Except GoStr Unit
  ociFetcherR : GoStr → Except GoStr (Nat × Descriptor)
  fetchDoc : Nat → Descriptor → Except GoStr OCIDoc
  fuel : Nat
  fetchBlob : Nat → Descriptor → Except GoStr Unit
  createFile : GoStr → Except GoStr Unit
  copyErr : Option GoStr
  closeWErr : Option GoStr
  closeRErr : Option GoStr
  hashEncoded : GoStr

def statusResolver (uri ociRef : GoStr) : OutMsg :=
  .statusMsg uri (gs "Creating a resolver for ociRef=\"" ++ ociRef ++ gs "\"")

def statusFetcher (uri ociRef : GoStr) : OutMsg :=
  .statusMsg uri (gs "Creating a fetcher for ociRef=\"" ++ ociRef ++ gs "\"")

def statusBuilding (uri : GoStr) (rootDesc : Descriptor) : OutMsg :=
  .statusMsg uri (gs "Building file map for rootDesc=" ++ rootDesc.digest.render)

/-- `Method.doCacheStuff`: cache hit returns the stored entry; a miss
creates a resolver, binds a fetcher, builds the file map and stores the
entry under `ociRef.String()`.  Returns (result, updated cache, emitted
messages); `none` = dispatch fuel ran out. -/
def doCacheStuff (env : MethodEnv) (cache : Cache) (uri ociRef : GoStr) :
    Option (Except GoStr CacheEntry × Cache × List OutMsg) :=
  match lookupA cache ociRef with
  | some x => some (.ok x, cache, [])
  | none =>
    match env.ociResolverR ociRef with
    | .error e => some (.error e, cache, [statusResolver uri ociRef])
    | .ok _ =>
      match env.ociFetcherR ociRef with
      | .error e =>
        some (.error e, cache, [statusResolver uri ociRef, statusFetcher uri ociRef])
      | .ok (fetcher, rootDesc) =>
        match buildFileMap env.fetchDoc fetcher env.fuel rootDesc with
        | none => none
        | some (.error e) =>
          some (.error e, cache,
            [statusResolver uri ociRef, statusFetcher uri ociRef,
             statusBuilding uri rootDesc])
        | some (.ok fileMap) =>
          some (.ok ⟨fetcher, fileMap⟩, insertA cache ociRef ⟨fetcher, fileMap⟩,
            [statusResolver uri ociRef, statusFetcher uri ociRef,
             statusBuilding uri rootDesc])

/-- A sequence of `doCacheStuff` calls, threading the cache state. -/
def runCacheCalls : List (MethodEnv × GoStr × GoStr) → Cache → Option Cache
  | [], cache => some cache
  | (env, uri, ociRef) :: rest, cache =>
    match doCacheStuff env cache uri ociRef with
    | none => none
    | some (_, cache', _) => runCacheCalls rest cache'

theorem doCacheStuff_preserves {env : MethodEnv} {cache cache' : Cache}
    {uri ociRef : GoStr} {res : Except GoStr CacheEntry} {out : List OutMsg}
    (h : doCacheStuff env cache uri ociRef = some (res, cache', out)) :
    (∀ k, k ≠ ociRef → lookupA cache' k = lookupA cache k)
      ∧ (∀ k e, lookupA cache k = some e → lookupA cache' k = some e) := by
  unfold doCacheStuff at h
  have hsame : cache' = cache ∨ (lookupA cache ociRef = none
      ∧ ∃ v, cache' = insertA cache ociRef v) := by
    split at h
    · left
      have := congrArg (fun p => p.2.1) (Option.some.inj h)
      simpa using this.symm
    · rename_i hmiss
      split at h
      · left
        have := congrArg (fun p => p.2.1) (Option.some.inj h)
        simpa using this.symm
      · split at h
        · left
          have := congrArg (fun p => p.2.1) (Option.some.inj h)
          simpa using this.symm
        · rename_i fetcher rootDesc _
          split at h
          · simp at h
          · left
            have := congrArg (fun p => p.2.1) (Option.some.inj h)
            simpa using this.symm
          · rename_i fileMap _
            right
            refine ⟨hmiss, ⟨fetcher, fileMap⟩, ?_⟩
            have := congrArg (fun p => p.2.1) (Option.some.inj h)
            simpa using this.symm
  rcases hsame with rfl | ⟨hmiss, v, rfl⟩
  · exact ⟨fun _ _ => rfl, fun _ _ he => he⟩
  · constructor
    · intro k hk
      simp only [insertA, lookupA]
      rw [if_neg (fun hh => hk hh.symm)]
    · intro k e he
      simp only [insertA, lookupA]
      split
      · rename_i hkk
        rw [hkk] at hmiss
        rw [hmiss] at he
        exact absurd he (by simp)
      · exact he

theorem runCacheCalls_preserves :
    ∀ (calls : List (MethodEnv × GoStr × GoStr)) (cache cache'' : Cache)
      (k : GoStr) (e : CacheEntry),
      lookupA cache k = some e → runCacheCalls calls cache = some cache'' →
      lookupA cache'' k = some e := by
  intro calls
  induction calls with
  | nil =>
    intro cache cache'' k e he h
    simp only [runCacheCalls, Option.some_inj] at h
    rw [← h]
    exact he
  | cons c rest ih =>
    intro cache cache'' k e he h
    obtain ⟨env, uri, ociRef⟩ := c
    simp only [runCacheCalls] at h
    cases hd : doCacheStuff env cache uri ociRef with
    | none => rw [hd] at h; simp at h
    | some r =>
      obtain ⟨res, cache', out⟩ := r
      rw [hd] at h
      simp only [] at h
      exact ih cache' cache'' k e
        ((doCacheStuff_preserves hd).2 k e he) h

/-- **C7.** Cache invariant: a stored entry is returned unchanged by
every subsequent `doCacheStuff` call for the same reference, with no
registry work (no status output, no dependence on the environment, no
cache change); no call ever removes or replaces a stored entry, across
any sequence of calls; and a call writes at most under the key of the
reference it was given. -/
theorem doCacheStuff_cache_invariant :
    (∀ (env : MethodEnv) (cache : Cache) (uri ociRef : GoStr) (e : CacheEntry),
      lookupA cache ociRef = some e →
      doCacheStuff env cache uri ociRef = some (.ok e, cache, []))
    ∧ (∀ (env : MethodEnv) (cache cache' : Cache) (uri ociRef : GoStr)
        (res : Except GoStr CacheEntry) (out : List OutMsg),
        doCacheStuff env cache uri ociRef = some (res, cache', out) →
        (∀ k, k ≠ ociRef → lookupA cache' k = lookupA cache k)
          ∧ (∀ k e, lookupA cache k = some e → lookupA cache' k = some e))
    ∧ (∀ (calls : List (MethodEnv × GoStr × GoStr)) (cache cache'' : Cache)
        (k : GoStr) (e : CacheEntry),
        lookupA cache k = some e → runCacheCalls calls cache = some cache'' →
        lookupA cache'' k = some e) := by
  refine ⟨?_, ?_, runCacheCalls_preserves⟩
  · intro env cache uri ociRef e he
    unfold doCacheStuff
    rw [he]
  · intro env cache cache' uri ociRef res out h
    exact doCacheStuff_preserves h

/-- A trivial environment for concrete instantiations. -/
def envT : MethodEnv :=
  ⟨fun r => .ok r, fun _ => .ok (), fun _ => .ok (0, exIndex), exFetchDoc, 4,
   fun _ _ => .ok (), fun _ => .ok (), none, none, none, gs "h"⟩

def entryT : CacheEntry := ⟨0, [(gs "Packages", exLayer1)]⟩

/-- Witness for C7: a concrete hit returns the stored entry with no
cache change and no output, and the entry survives a subsequent
cache-miss call for a different reference. -/
theorem doCacheStuff_cache_invariant_witness :
    doCacheStuff envT [(gs "reg.example/repo:tag", entryT)] (gs "u")
        (gs "reg.example/repo:tag")
      = some (.ok entryT, [(gs "reg.example/repo:tag", entryT)], [])
    ∧ lookupA ((gs "other",
          (⟨0, [(gs "Packages", exLayer2), (gs "Packages", exLayer1)]⟩ : CacheEntry))
        :: [(gs "reg.example/repo:tag", entryT)]) (gs "reg.example/repo:tag")
      = some entryT :=
  ⟨doCacheStuff_cache_invariant.1 envT
      [(gs "reg.example/repo:tag", entryT)] (gs "u")
      (gs "reg.example/repo:tag") entryT (by rfl),
   doCacheStuff_cache_invariant.2.2 [(envT, gs "u", gs "other")]
      [(gs "reg.example/repo:tag", entryT)]
      ((gs "other",
          (⟨0, [(gs "Packages", exLayer2), (gs "Packages", exLayer1)]⟩ : CacheEntry))
        :: [(gs "reg.example/repo:tag", entryT)])
      (gs "reg.example/repo:tag") entryT (by rfl) (by rfl)⟩

/-!
## The acquire engine (`Method.acquire`, lines 288–368, and
`Method.handleURIAcquire`, lines 95–107)
-/

/-- `strconv.Itoa`. -/
def goItoa (i : Int) : GoStr :=
  if i < 0 then '-' :: Nat.toDigits 10 (-i).toNat
  else Nat.toDigits 10 i.toNat

/-- The digest-mismatch error text of `Method.acquire` (line 355):
`fmt.Errorf("expected digest of %q to be %s, got %s", title, desc.Digest, dig)`. -/
def digestErrText (title : GoStr) (declared : GoDigest) (computedEnc : GoStr) : GoStr :=
  gs "expected digest of \"" ++ title ++ gs "\" to be " ++ declared.render
    ++ gs ", got " ++ GoDigest.render ⟨gs "sha256", computedEnc⟩

/-- `Method.acquire`.  Returns `(started, err, cache', output)`; `none`
= dispatch fuel ran out inside the cache build. -/
def acquire (env : MethodEnv) (cache : Cache) (msg : AptMessage) :
    Option (Bool × Option GoStr × Cache × List OutMsg) :=
  match parseURIFields env.pdr msg with
  | .error e =>
    some (false, some e, cache, [.statusMsg (msg.field fieldURI) (gs "Parsing msg")])
  | .ok (ociRef, title) =>
    match doCacheStuff env cache (msg.field fieldURI) ociRef with
    | none => none
    | some (.error e, cache', out1) =>
      some (false, some e, cache',
        .statusMsg (msg.field fieldURI) (gs "Parsing msg") :: out1)
    | some (.ok c, cache', out1) =>
      match lookupA c.fileMap title with
      | none =>
        some (false,
          some (gs "file not found in \"" ++ ociRef ++ gs "\": \""
            ++ title ++ gs "\""), cache',
          .statusMsg (msg.field fieldURI) (gs "Parsing msg") :: out1)
      | some desc =>
        match env.fetchBlob c.fetcher desc with
        | .error e =>
          some (true, some e, cache',
            .statusMsg (msg.field fieldURI) (gs "Parsing msg") :: out1
              ++ [.statusMsg (msg.field fieldURI)
                    (gs "Found descriptor for \"" ++ title ++ gs "\"")]
              ++ (if desc.mediaType = mediaTypeOctetStream
                    ∨ desc.mediaType = mediaTypeXBinary then []
                  else [.warningMsg (gs "expected media type of \"" ++ title
                    ++ gs "\" to be \"" ++ mediaTypeXBinary ++ gs "\", got \""
                    ++ desc.mediaType ++ gs "\"")])
              ++ [.uriStart (msg.field fieldURI) [] desc.size false])
        | .ok _ =>
          match env.createFile (msg.field fieldFilename) with
          | .error e =>
            some (true, some e, cache',
              .statusMsg (msg.field fieldURI) (gs "Parsing msg") :: out1
                ++ [.statusMsg (msg.field fieldURI)
                      (gs "Found descriptor for \"" ++ title ++ gs "\"")]
                ++ (if desc.mediaType = mediaTypeOctetStream
                      ∨ desc.mediaType = mediaTypeXBinary then []
                    else [.warningMsg (gs "expected media type of \"" ++ title
                      ++ gs "\" to be \"" ++ mediaTypeXBinary ++ gs "\", got \""
                      ++ desc.mediaType ++ gs "\"")])
                ++ [.uriStart (msg.field fieldURI) [] desc.size false])
          | .ok _ =>
            match env.copyErr with
            | some e =>
              some (true, some e, cache',
                .statusMsg (msg.field fieldURI) (gs "Parsing msg") :: out1
                  ++ [.statusMsg (msg.field fieldURI)
                        (gs "Found descriptor for \"" ++ title ++ gs "\"")]
                  ++ (if desc.mediaType = mediaTypeOctetStream
                        ∨ desc.mediaType = mediaTypeXBinary then []
                      else [.warningMsg (gs "expected media type of \"" ++ title
                        ++ gs "\" to be \"" ++ mediaTypeXBinary ++ gs "\", got \""
                        ++ desc.mediaType ++ gs "\"")])
                  ++ [.uriStart (msg.field fieldURI) [] desc.size false])
            | none =>
              match env.closeWErr with
              | some e =>
                some (true, some e, cache',
                  .statusMsg (msg.field fieldURI) (gs "Parsing msg") :: out1
                    ++ [.statusMsg (msg.field fieldURI)
                          (gs "Found descriptor for \"" ++ title ++ gs "\"")]
                    ++ (if desc.mediaType = mediaTypeOctetStream
                          ∨ desc.mediaType = mediaTypeXBinary then []
                        else [.warningMsg (gs "expected media type of \"" ++ title
                          ++ gs "\" to be \"" ++ mediaTypeXBinary ++ gs "\", got \""
                          ++ desc.mediaType ++ gs "\"")])
                    ++ [.uriStart (msg.field fieldURI) [] desc.size false])
              | none =>
                match env.closeRErr with
                | some e =>
                  some (true, some e, cache',
                    .statusMsg (msg.field fieldURI) (gs "Parsing msg") :: out1
                      ++ [.statusMsg (msg.field fieldURI)
                            (gs "Found descriptor for \"" ++ title ++ gs "\"")]
                      ++ (if desc.mediaType = mediaTypeOctetStream
                            ∨ desc.mediaType = mediaTypeXBinary then []
                          else [.warningMsg (gs "expected media type of \"" ++ title
                            ++ gs "\" to be \"" ++ mediaTypeXBinary ++ gs "\", got \""
                            ++ desc.mediaType ++ gs "\"")])
                      ++ [.uriStart (msg.field fieldURI) [] desc.size false])
                | none =>
                  if desc.digest.algorithm = gs "sha256"
                      ∧ desc.digest.encoded ≠ env.hashEncoded then
                    some (true,
                      some (digestErrText title desc.digest env.hashEncoded), cache',
                      .statusMsg (msg.field fieldURI) (gs "Parsing msg") :: out1
                        ++ [.statusMsg (msg.field fieldURI)
                              (gs "Found descriptor for \"" ++ title ++ gs "\"")]
                        ++ (if desc.mediaType = mediaTypeOctetStream
                              ∨ desc.mediaType = mediaTypeXBinary then []
                            else [.warningMsg (gs "expected media type of \"" ++ title
                              ++ gs "\" to be \"" ++ mediaTypeXBinary ++ gs "\", got \""
                              ++ desc.mediaType ++ gs "\"")])
                        ++ [.uriStart (msg.field fieldURI) [] desc.size false])
                  else
                    some (true, none, cache',
                      .statusMsg (msg.field fieldURI) (gs "Parsing msg") :: out1
                        ++ [.statusMsg (msg.field fieldURI)
                              (gs "Found descriptor for \"" ++ title ++ gs "\"")]
                        ++ (if desc.mediaType = mediaTypeOctetStream
                              ∨ desc.mediaType = mediaTypeXBinary then []
                            else [.warningMsg (gs "expected media type of \"" ++ title
                              ++ gs "\" to be \"" ++ mediaTypeXBinary ++ gs "\", got \""
                              ++ desc.mediaType ++ gs "\"")])
                        ++ [.uriStart (msg.field fieldURI) [] desc.size false,
                            .uriDone (msg.field fieldURI) (msg.field fieldFilename)
                              [] [] false false
                              [(fieldSize, goItoa desc.size),
                               (fieldSHA256Hash, env.hashEncoded)]])

/-- `Method.handleURIAcquire`: run `acquire`; on error, synthesize a
`200 URI Start` when the request had not started, then emit the
`400 URI Failure` with the error text as message and fail-reason. -/
def handleURIAcquire (env : MethodEnv) (cache : Cache) (msg : AptMessage) :
    Option (Cache × List OutMsg) :=
  match acquire env cache msg with
  | none => none
  | some (_, none, cache', out) => some (cache', out)
  | some (started, some e, cache', out) =>
    some (cache', out
      ++ (if started then [] else [.uriStart (msg.field fieldURI) [] 0 false])
      ++ [.uriFailure (msg.field fieldURI) e e false false])

theorem doCacheStuff_no_start {env : MethodEnv} {cache : Cache}
    {uri ociRef : GoStr} {r : Except GoStr CacheEntry} {c' : Cache}
    {out1 : List OutMsg}
    (h : doCacheStuff env cache uri ociRef = some (r, c', out1)) :
    out1.any OutMsg.isUriStart = false := by
  unfold doCacheStuff at h
  split at h
  · simp only [Option.some_inj, Prod.mk.injEq] at h
    obtain ⟨-, -, h3⟩ := h
    rw [← h3]
    rfl
  · split at h
    · simp only [Option.some_inj, Prod.mk.injEq] at h
      obtain ⟨-, -, h3⟩ := h
      rw [← h3]
      rfl
    · split at h
      · simp only [Option.some_inj, Prod.mk.injEq] at h
        obtain ⟨-, -, h3⟩ := h
        rw [← h3]
        rfl
      · split at h
        · simp at h
        · simp only [Option.some_inj, Prod.mk.injEq] at h
          obtain ⟨-, -, h3⟩ := h
          rw [← h3]
          rfl
        · simp only [Option.some_inj, Prod.mk.injEq] at h
          obtain ⟨-, -, h3⟩ := h
          rw [← h3]
          rfl

/-- **C2.** `acquire` reports `started = false` exactly when it fails
before emitting the `200 URI Start` (field parsing, cache/build,
file-index lookup — the media-type check never fails), and
`started = true` for every failure at or after that emission and on
success; the dispatcher emits a synthetic `200 URI Start` before the
`400 URI Failure` exactly when `started = false`. -/
theorem acquire_started_report
    {env : MethodEnv} {cache : Cache} {msg : AptMessage}
    {started : Bool} {errOpt : Option GoStr} {cache' : Cache} {out : List OutMsg}
    (h : acquire env cache msg = some (started, errOpt, cache', out)) :
    ((started = true) ↔ out.any OutMsg.isUriStart = true)
    ∧ (∀ e, errOpt = some e →
        handleURIAcquire env cache msg
          = some (cache', out
              ++ (if started then []
                  else [.uriStart (msg.field fieldURI) [] 0 false])
              ++ [.uriFailure (msg.field fieldURI) e e false false]))
    ∧ (errOpt = none → handleURIAcquire env cache msg = some (cache', out)) := by
  have hacq := h
  unfold acquire at hacq
  split at hacq
  · -- parseURIFields error
    simp only [Option.some_inj, Prod.mk.injEq] at hacq
    obtain ⟨h1, h2, h3, h4⟩ := hacq
    subst h1; subst h2; subst h3; subst h4
    refine ⟨by simp [OutMsg.isUriStart], ?_, ?_⟩
    · intro e' he
      obtain rfl := Option.some.inj he
      unfold handleURIAcquire
      rw [h]
    · intro hn
      exact absurd hn (by simp)
  · split at hacq
    · exact absurd hacq (by simp)
    · -- doCacheStuff error
      rename_i hdc
      simp only [Option.some_inj, Prod.mk.injEq] at hacq
      obtain ⟨h1, h2, h3, h4⟩ := hacq
      subst h1; subst h2; subst h3; subst h4
      have hno := doCacheStuff_no_start hdc
      refine ⟨by simp [OutMsg.isUriStart, hno], ?_, ?_⟩
      · intro e' he
        obtain rfl := Option.some.inj he
        unfold handleURIAcquire
        rw [h]
      · intro hn
        exact absurd hn (by simp)
    · -- cache entry obtained
      rename_i hdc
      split at hacq
      · -- file not found
        simp only [Option.some_inj, Prod.mk.injEq] at hacq
        obtain ⟨h1, h2, h3, h4⟩ := hacq
        subst h1; subst h2; subst h3; subst h4
        have hno := doCacheStuff_no_start hdc
        refine ⟨by simp [OutMsg.isUriStart, hno], ?_, ?_⟩
        · intro e' he
          obtain rfl := Option.some.inj he
          unfold handleURIAcquire
          rw [h]
        · intro hn
          exact absurd hn (by simp)
      · -- descriptor found
        split at hacq
        · -- fetch error
          simp only [Option.some_inj, Prod.mk.injEq] at hacq
          obtain ⟨h1, h2, h3, h4⟩ := hacq
          subst h1; subst h2; subst h3; subst h4
          refine ⟨by simp [List.any_append, OutMsg.isUriStart], ?_, ?_⟩
          · intro e' he
            obtain rfl := Option.some.inj he
            unfold handleURIAcquire
            rw [h]
          · intro hn
            exact absurd hn (by simp)
        · split at hacq
          · -- create error
            simp only [Option.some_inj, Prod.mk.injEq] at hacq
            obtain ⟨h1, h2, h3, h4⟩ := hacq
            subst h1; subst h2; subst h3; subst h4
            refine ⟨by simp [List.any_append, OutMsg.isUriStart], ?_, ?_⟩
            · intro e' he
              obtain rfl := Option.some.inj he
              unfold handleURIAcquire
              rw [h]
            · intro hn
              exact absurd hn (by simp)
          · split at hacq
            · -- copy error
              simp only [Option.some_inj, Prod.mk.injEq] at hacq
              obtain ⟨h1, h2, h3, h4⟩ := hacq
              subst h1; subst h2; subst h3; subst h4
              refine ⟨by simp [List.any_append, OutMsg.isUriStart], ?_, ?_⟩
              · intro e' he
                obtain rfl := Option.some.inj he
                unfold handleURIAcquire
                rw [h]
              · intro hn
                exact absurd hn (by simp)
            · split at hacq
              · -- close(w) error
                simp only [Option.some_inj, Prod.mk.injEq] at hacq
                obtain ⟨h1, h2, h3, h4⟩ := hacq
                subst h1; subst h2; subst h3; subst h4
                refine ⟨by simp [List.any_append, OutMsg.isUriStart], ?_, ?_⟩
                · intro e' he
                  obtain rfl := Option.some.inj he
                  unfold handleURIAcquire
                  rw [h]
                · intro hn
                  exact absurd hn (by simp)
              · split at hacq
                · -- close(r) error
                  simp only [Option.some_inj, Prod.mk.injEq] at hacq
                  obtain ⟨h1, h2, h3, h4⟩ := hacq
                  subst h1; subst h2; subst h3; subst h4
                  refine ⟨by simp [List.any_append, OutMsg.isUriStart], ?_, ?_⟩
                  · intro e' he
                    obtain rfl := Option.some.inj he
                    unfold handleURIAcquire
                    rw [h]
                  · intro hn
                    exact absurd hn (by simp)
                · split at hacq
                  · -- digest mismatch
                    simp only [Option.some_inj, Prod.mk.injEq] at hacq
                    obtain ⟨h1, h2, h3, h4⟩ := hacq
                    subst h1; subst h2; subst h3; subst h4
                    refine ⟨by simp [List.any_append, OutMsg.isUriStart], ?_, ?_⟩
                    · intro e' he
                      obtain rfl := Option.some.inj he
                      unfold handleURIAcquire
                      rw [h]
                    · intro hn
                      exact absurd hn (by simp)
                  · -- success
                    simp only [Option.some_inj, Prod.mk.injEq] at hacq
                    obtain ⟨h1, h2, h3, h4⟩ := hacq
                    subst h1; subst h2; subst h3; subst h4
                    refine ⟨by simp [List.any_append, List.any_cons, OutMsg.isUriStart], ?_, ?_⟩
                    · intro e' he
                      exact absurd he (by simp)
                    · intro _
                      unfold handleURIAcquire
                      rw [h]

/-- A concrete `600 URI Acquire` message against the scenario-B
registry. -/
def msgB : AptMessage :=
  ⟨600, gs "URI Acquire",
   [(fieldTargetRepoURI, gs "oci://reg.example/repo:tag/"),
    (fieldURI, gs "oci://reg.example/repo:tag/Packages"),
    (fieldFilename, gs "/tmp/Packages")]⟩

/-- The file map of the scenario-B registry. -/
def fMapW : FileMap := [(gs "Packages", exLayer2), (gs "Packages", exLayer1)]

/-- The status messages emitted while building the scenario-B cache
entry. -/
def out1W : List OutMsg :=
  [statusResolver (msgB.field fieldURI) (gs "reg.example/repo:tag"),
   statusFetcher (msgB.field fieldURI) (gs "reg.example/repo:tag"),
   statusBuilding (msgB.field fieldURI) exIndex]

/-- Witness for C2 at a concrete request (a post-start digest-mismatch
failure: `started = true` and the output contains the `200 URI
Start`). -/
theorem acquire_started_report_witness :
    ∃ started errOpt cache' out,
      acquire envT [] msgB = some (started, errOpt, cache', out)
        ∧ ((started = true) ↔ out.any OutMsg.isUriStart = true) := by
  have h : acquire envT [] msgB
      = some (true,
          some (digestErrText (gs "Packages") exLayer2.digest (gs "h")),
          [(gs "reg.example/repo:tag", (⟨0, fMapW⟩ : CacheEntry))],
          [.statusMsg (msgB.field fieldURI) (gs "Parsing msg"),
           statusResolver (msgB.field fieldURI) (gs "reg.example/repo:tag"),
           statusFetcher (msgB.field fieldURI) (gs "reg.example/repo:tag"),
           statusBuilding (msgB.field fieldURI) exIndex,
           .statusMsg (msgB.field fieldURI) (gs "Found descriptor for \"Packages\""),
           .uriStart (msgB.field fieldURI) [] 4 false]) := by rfl
  exact ⟨_, _, _, _, h, (acquire_started_report h).1⟩

/-- **C1.** For every acquire request whose blob fetch (and local file
writes and closes) complete: when the descriptor's declared digest has
algorithm `sha256` (the algorithm of the computed digest) and a
different encoded value, `acquire` fails — after having started — with
the error naming both the expected and the computed digest; when the
encoded values are identical it proceeds to success; and when the
declared algorithm differs from `sha256`, no comparison is performed
and the fetch is accepted regardless of the encoded values. -/
theorem acquire_digest_verification
    {env : MethodEnv} {cache : Cache} {msg : AptMessage}
    {ociRef title : GoStr} {c : CacheEntry} {cache' : Cache}
    {out1 : List OutMsg} {desc : Descriptor}
    (hpf : parseURIFields env.pdr msg = .ok (ociRef, title))
    (hdc : doCacheStuff env cache (msg.field fieldURI) ociRef
      = some (.ok c, cache', out1))
    (hlk : lookupA c.fileMap title = some desc)
    (hfb : env.fetchBlob c.fetcher desc = .ok ())
    (hcf : env.createFile (msg.field fieldFilename) = .ok ())
    (hcp : env.copyErr = none)
    (hcw : env.closeWErr = none)
    (hcr : env.closeRErr = none) :
    (desc.digest.algorithm = gs "sha256" → desc.digest.encoded ≠ env.hashEncoded →
      ∃ out, acquire env cache msg
        = some (true, some (digestErrText title desc.digest env.hashEncoded),
            cache', out))
    ∧ (desc.digest.encoded = env.hashEncoded →
      ∃ out, acquire env cache msg = some (true, none, cache', out))
    ∧ (desc.digest.algorithm ≠ gs "sha256" →
      ∃ out, acquire env cache msg = some (true, none, cache', out)) := by
  refine ⟨?_, ?_, ?_⟩
  · intro ha hne
    exact ⟨_, by
      simp only [acquire, hpf, hdc, hlk, hfb, hcf, hcp, hcw, hcr]
      rw [if_pos ⟨ha, hne⟩]⟩
  · intro he
    exact ⟨_, by
      simp only [acquire, hpf, hdc, hlk, hfb, hcf, hcp, hcw, hcr]
      rw [if_neg (fun hcond => hcond.2 he)]⟩
  · intro hna
    exact ⟨_, by
      simp only [acquire, hpf, hdc, hlk, hfb, hcf, hcp, hcw, hcr]
      rw [if_neg (fun hcond => hna hcond.1)]⟩

/-- Witness for C1: the concrete request hits the digest-mismatch
branch (declared `sha256:l2`, computed `sha256:h`). -/
theorem acquire_digest_verification_witness :
    ∃ out, acquire envT [] msgB
      = some (true,
          some (digestErrText (gs "Packages") exLayer2.digest (gs "h")),
          [(gs "reg.example/repo:tag", (⟨0, fMapW⟩ : CacheEntry))], out) :=
  (@acquire_digest_verification envT [] msgB
    (gs "reg.example/repo:tag") (gs "Packages")
    (⟨0, fMapW⟩ : CacheEntry)
    [(gs "reg.example/repo:tag", (⟨0, fMapW⟩ : CacheEntry))]
    out1W exLayer2
    (by rfl) (by rfl) (by rfl) (by rfl) (by rfl) rfl rfl rfl).1
    (by rfl) (by decide)

/-!
## The message framer (`apt.MessageReader`, message.go) and the
protocol driver (`Method.Run`, lines 68–93)

The input stream is a list of complete lines followed by a persistent
terminal error (`io.EOF` for end of input, `io.ErrClosedPipe` for a
closed pipe, ...).  `bufio.ReadString('\n')` returns each line; the
trailing delimiter is omitted from the model because every consumer
immediately applies `strings.TrimSpace` / `ParseHeader` (which trims).
Go error identity (`err == io.EOF`, `errors.Is`) is constructor
equality; `errorGroup` produces a fresh `errors.New` string error that
never compares equal to a sentinel, exactly as in Go.
-/

inductive GoErr where
  | eof
  | closedPipe
  | noProgress
  | shortBuffer
  | str (s : GoStr)
  deriving DecidableEq

/-- `err.Error()`. -/
def GoErr.render : GoErr → GoStr
  | .eof => gs "EOF"
  | .closedPipe => gs "io: read/write on closed pipe"
  | .noProgress => gs "multiple Read calls return no data or error"
  | .shortBuffer => gs "short buffer"
  | .str s => s

/-- `errorGroup` from message.go: a single `errors.New` built from the
header and one indented line per cause. -/
def errorGroup (header : GoStr) (errs : List GoErr) : GoErr :=
  .str (errs.foldl (fun acc e => acc ++ gs "\n  " ++ e.render) header)

/-- Reader state: remaining input lines, the terminal stream error, and
the in-progress message (`MessageReader.message`). -/
structure RState where
  lines : List GoStr
  termErr : GoErr
  message : Option AptMessage
  deriving DecidableEq

/-- `bufio.Reader.ReadString('\n')`: the next line, or the terminal
error once the lines are exhausted. -/
def readString (st : RState) : GoStr × Option GoErr × RState :=
  match st.lines with
  | l :: rest => (l, none, { st with lines := rest })
  | [] => ([], some st.termErr, st)

/-- `strconv.ParseUint(s, 10, 64)`. -/
def parseUint64 (s : GoStr) : Option Nat :=
  if s ≠ [] ∧ s.all (fun ch => ch.isDigit) then
    if s.foldl (fun acc ch => acc * 10 + (ch.toNat - '0'.toNat)) 0 < 2 ^ 64 then
      some (s.foldl (fun acc ch => acc * 10 + (ch.toNat - '0'.toNat)) 0)
    else none
  else none

/-- `apt.ParseHeader`. -/
def parseHeader (line : GoStr) : Except GoErr AptMessage :=
  if goTrimSpace line = [] then
    .error (.str (gs "not a header spec: Empty line"))
  else
    match splitOnFirst ' ' (goTrimSpace line) with
    | none =>
      .error (.str (gs "not a header spec: \"" ++ goTrimSpace line ++ gs "\""))
    | some (codePart, descPart) =>
      match parseUint64 (goTrimSpace codePart) with
      | none => .error (.str (gs "could not parse Status Code"))
      | some code =>
        if goTrimSpace descPart = [] then
          .error (.str (gs "empty description header for \""
            ++ goTrimSpace line ++ gs "\""))
        else .ok ⟨code, goTrimSpace descPart, []⟩

/-- `MessageReader.ReadLine`: returns (committed message, error, new
state).  `commitMessage` is inlined as the state update that clears or
replaces the in-progress message. -/
def readLine (st : RState) : Option AptMessage × Option GoErr × RState :=
  match st.message with
  | none =>
    match readString st with
    | (_, some e, st') => (none, some e, st')
    | (line, none, st') =>
      match parseHeader line with
      | .error e => (none, some e, st')
      | .ok m => (none, none, { st' with message := some m })
  | some cur =>
    match readString st with
    | (_, some e, st') => (some cur, some e, { st' with message := none })
    | (line0, none, st') =>
      if goTrimSpace line0 = [] then
        (some cur, none, { st' with message := none })
      else
        match splitOnFirst ':' (goTrimSpace line0) with
        | some (k, v) =>
          (none, none,
            { st' with message := some (AptMessage.mk cur.statusCode cur.description (insertA cur.fields (goTrimSpace k) (goTrimSpace v))) })
        | none =>
          match parseHeader (goTrimSpace line0) with
          | .error _ =>
            (none, some (.str (gs "invalid field format in \""
              ++ goTrimSpace line0 ++ gs "\"")), st')
          | .ok m =>
            (some cur,
              some (.str (gs "new message started without old message ending")),
              { st' with message := some m })

/-- `MessageReader.ReadMessage`: loop `ReadLine` until a message or a
bare `io.EOF` comes back, accumulating recoverable errors into an
aggregate; fuelled (`none` = fuel ran out; the Go loop spins forever
when a non-EOF terminal error hits at a message boundary). -/
def readMessageAux :
    Nat → RState → List GoErr →
    Option (Option AptMessage × Option GoErr × RState)
  | 0, _, _ => none
  | fuel + 1, st, errs =>
    match readLine st with
    | (some m, some e, st') =>
      some (some m,
        some (if errs = [] then e
          else errorGroup (gs "Errors while reading message:") (errs ++ [e])), st')
    | (some m, none, st') =>
      some (some m,
        (if errs = [] then none
          else some (errorGroup (gs "Errors while reading message:") errs)), st')
    | (none, some e, st') =>
      if e = .eof then
        some (none,
          some (if errs = [] then e
            else errorGroup (gs "Errors while reading message:") (errs ++ [e])), st')
      else readMessageAux fuel st' (errs ++ [e])
    | (none, none, st') => readMessageAux fuel st' errs

def readMessage (fuel : Nat) (st : RState) :
    Option (Option AptMessage × Option GoErr × RState) :=
  readMessageAux fuel st []

/-- The dispatch step of `Method.Run`'s loop body (the
`switch msg.StatusCode`), parameterized over the continuation of the
loop.  A `nil` message here would make the Go code dereference nil;
`readMessage` never produces it together with a non-fatal error. -/
def dispatchMsg (env : MethodEnv) (cache : Cache) (msgOpt : Option AptMessage)
    (next : Cache → Option (Cache × List OutMsg)) :
    Option (Cache × List OutMsg) :=
  match msgOpt with
  | none => some (cache, [])
  | some m =>
    if m.statusCode = 600 then
      match handleURIAcquire env cache m with
      | none => none
      | some (cache2, outs) =>
        match next cache2 with
        | none => none
        | some (cache3, outs2) => some (cache3, outs ++ outs2)
    else
      match next cache with
      | none => none
      | some (cache3, outs2) =>
        some (cache3, .logMsg (gs "Unknown message: "
          ++ goItoa (m.statusCode : Int) ++ gs " " ++ m.description) :: outs2)

/-- The loop of `Method.Run`: read a message; end-of-input / closed
pipe terminate cleanly; no-progress / short-buffer are ignored; any
other read error emits `401 General Failure` and terminates; otherwise
dispatch by status code and continue. -/
def runLoop (env : MethodEnv) : Nat → RState → Cache →
    Option (Cache × List OutMsg)
  | 0, _, _ => none
  | fuel + 1, st, cache =>
    match readMessage (fuel + 1) st with
    | none => none
    | some (msgOpt, some e, st') =>
      if e = .eof ∨ e = .closedPipe then some (cache, [])
      else if e = .noProgress ∨ e = .shortBuffer then
        dispatchMsg env cache msgOpt (runLoop env fuel st')
      else
        some (cache, [.generalFailure (gs "Error reading message: " ++ e.render)])
    | some (msgOpt, none, st') =>
      dispatchMsg env cache msgOpt (runLoop env fuel st')

/-- `Method.Run`: announce capabilities, then loop. -/
def methodRun (env : MethodEnv) (ver : GoStr) (fuel : Nat) (st : RState)
    (cache : Cache) : Option (Cache × List OutMsg) :=
  (runLoop env fuel st cache).map (fun p => (p.1, .capabilities ver :: p.2))

/-- **C8.** While a message's fields are being read, a line that is
neither blank nor of the `key:value` field form but parses as a header
makes `ReadLine` return the previous (incomplete) message together with
the "new message started without old message ending" error, and the
newly parsed header becomes the in-progress message for subsequent
reads. -/
theorem readLine_concurrent_header
    {st : RState} {cur hnew : AptMessage} {l : GoStr} {rest : List GoStr}
    (hmsg : st.message = some cur)
    (hlines : st.lines = l :: rest)
    (hnb : goTrimSpace l ≠ [])
    (hnf : splitOnFirst ':' (goTrimSpace l) = none)
    (hph : parseHeader (goTrimSpace l) = .ok hnew) :
    readLine st = (some cur,
      some (.str (gs "new message started without old message ending")),
      ⟨rest, st.termErr, some hnew⟩) := by
  obtain ⟨lines0, term0, msg0⟩ := st
  simp only [] at hmsg hlines
  subst hmsg
  subst hlines
  simp only [readLine, readString, if_neg hnb, hnf, hph]

/-- Witness for C8: a `200 Other` header arriving while `600 URI
Acquire` is still collecting fields. -/
theorem readLine_concurrent_header_witness :
    readLine ⟨[gs "200 Other"], .eof,
        some ⟨600, gs "URI Acquire", [(gs "Key", gs "v")]⟩⟩
      = (some ⟨600, gs "URI Acquire", [(gs "Key", gs "v")]⟩,
        some (.str (gs "new message started without old message ending")),
        ⟨[], .eof, some ⟨200, gs "Other", []⟩⟩) := by
  exact readLine_concurrent_header (by rfl) (by rfl) (by decide) (by rfl) (by rfl)

/-- **C9 (amended).** When `ReadMessage` surfaces an *unwrapped*
end-of-input or closed-pipe error — an end of input reached with no
recoverable framing error accumulated in that call, or either
condition reached mid-message, where the partial message accompanies
the error — the `Run` loop terminates cleanly, emitting nothing (in
particular no `401 General Failure`).  When a different, non-ignored
error surfaces (such as the aggregate error produced when framing
errors accumulated before end of input), `Run` emits exactly one
`401 General Failure` and terminates. -/
theorem runLoop_stream_end
    {env : MethodEnv} {fuel : Nat} {st st' : RState} {cache : Cache}
    {m : Option AptMessage} {e : GoErr}
    (h : readMessage (fuel + 1) st = some (m, some e, st')) :
    ((e = .eof ∨ e = .closedPipe) →
      runLoop env (fuel + 1) st cache = some (cache, []))
    ∧ (e ≠ .eof → e ≠ .closedPipe → e ≠ .noProgress → e ≠ .shortBuffer →
      runLoop env (fuel + 1) st cache
        = some (cache,
            [.generalFailure (gs "Error reading message: " ++ e.render)])) := by
  constructor
  · intro hfe
    unfold runLoop
    rw [h]
    simp only [if_pos hfe]
  · intro h1 h2 h3 h4
    unfold runLoop
    rw [h]
    simp only [if_neg (show ¬(e = GoErr.eof ∨ e = GoErr.closedPipe) by
        rintro (hh | hh)
        · exact h1 hh
        · exact h2 hh),
      if_neg (show ¬(e = GoErr.noProgress ∨ e = GoErr.shortBuffer) by
        rintro (hh | hh)
        · exact h3 hh
        · exact h4 hh)]

/-- Witness for C9: the stream ends mid-message; `ReadMessage` returns
the partial `600 Test` message with the unwrapped `io.EOF`, and the
loop terminates cleanly with no output. -/
theorem runLoop_stream_end_witness :
    readMessage 2 ⟨[gs "600 Test"], .eof, none⟩
        = some (some ⟨600, gs "Test", []⟩, some .eof, ⟨[], .eof, none⟩)
    ∧ runLoop envT 2 ⟨[gs "600 Test"], .eof, none⟩ [] = some ([], []) := by
  have h : readMessage (1 + 1) ⟨[gs "600 Test"], .eof, none⟩
      = some (some ⟨600, gs "Test", []⟩, some .eof, ⟨[], .eof, none⟩) := by rfl
  exact ⟨h, (runLoop_stream_end h).1 (Or.inl rfl)⟩

/-- Counterexample to C9 as stated: on the input stream consisting of
the single unparsable line `garbage` followed by end of input, the
terminal `io.EOF` is reached, yet `Run` emits a `401 General Failure`
(the EOF was folded into the aggregate read error) before
terminating. -/
theorem run_eof_emits_general_failure :
    methodRun envT (gs "0.1") 3 ⟨[gs "garbage"], .eof, none⟩ []
      = some ([], [.capabilities (gs "0.1"),
          .generalFailure (gs "Error reading message: Errors while reading message:\n  not a header spec: \"garbage\"\n  EOF")])
    ∧ [OutMsg.capabilities (gs "0.1"),
        .generalFailure (gs "Error reading message: Errors while reading message:\n  not a header spec: \"garbage\"\n  EOF")].any
        OutMsg.isGeneralFailure = true := by
  exact ⟨by rfl, by rfl⟩
